import Mathlib

/-!
# Verification of the PySlow8 CHIP-8 interpreter core

A shallow embedding of `src/PySlow8.py` (class `C8Interpreter`).  Python's
fixed-length integer lists (`memory`, `V`, `gfx`, `keys`, `prev_keys`) are
modelled as total functions `Nat → Nat`; indices used by the interpreter stay
inside the lists' bounds in every situation the theorems below speak about.
The call stack (a Python list used with `append`/`pop`) is modelled as a Lean
`List` whose head is the top of the stack.  The `randint(0, 255)` call in
opcode CXNN is modelled as an oracle argument `rnd` supplied to each step.
Failure paths (the `IndexError` of `stack.pop()` on an empty stack) are
modelled with `Option`.
-/

namespace PySlow8

/-- Pointwise update of a function modelling in-place assignment `f[i] = v`. -/
def upd (f : Nat → Nat) (i v : Nat) : Nat → Nat :=
  fun j => if j = i then v else f j

theorem upd_same (f : Nat → Nat) (i v : Nat) : upd f i v i = v := by
  simp [upd]

theorem upd_other (f : Nat → Nat) (i v j : Nat) (h : j ≠ i) : upd f i v j = f j := by
  simp [upd, h]

/-- The interpreter state: the fields of `C8Interpreter` that the core
fetch-decode-execute cycle reads or writes (`C8Interpreter.__init__`). -/
structure C8State where
  memory : Nat → Nat
  V : Nat → Nat
  I : Nat
  pc : Nat
  gfx : Nat → Nat
  draw_flag : Bool
  delay_timer : Nat
  sound_timer : Nat
  stack : List Nat
  keys : Nat → Nat
  prev_keys : Nat → Nat

/-! ## Sprite drawing (`C8Interpreter._draw_sprite_to_internal`) -/

/-- One column of the non-unrolled inner loop of `_draw_sprite_to_internal`:
`if (sprite_byte >> (7 - col)) & 1: collision |= gfx[col + y_coord];
gfx[col + y_coord] ^= 1`.  The accumulator carries `(gfx, collision)`. -/
def colStep (sprite_byte y_coord : Nat) (acc : (Nat → Nat) × Nat) (col : Nat) :
    (Nat → Nat) × Nat :=
  if (sprite_byte >>> (7 - col)) &&& 1 ≠ 0 then
    (upd acc.1 (col + y_coord) (acc.1 (col + y_coord) ^^^ 1),
     acc.2 ||| acc.1 (col + y_coord))
  else acc

/-- One `if sprite_byte & mask:` block of the unrolled (`max_cols == 8`)
branch of `_draw_sprite_to_internal`; `off` is the literal column offset. -/
def bitStep (sprite_byte mask off y_coord : Nat) (acc : (Nat → Nat) × Nat) :
    (Nat → Nat) × Nat :=
  if sprite_byte &&& mask ≠ 0 then
    (upd acc.1 (off + y_coord) (acc.1 (off + y_coord) ^^^ 1),
     acc.2 ||| acc.1 (off + y_coord))
  else acc

/-- The eight unrolled `if` blocks of the `max_cols == 8` branch, in source
order (mask `0x80` for column 0 down to mask `0x01` for column 7). -/
def unrolledRow (sprite_byte y_coord : Nat) (acc : (Nat → Nat) × Nat) :
    (Nat → Nat) × Nat :=
  bitStep sprite_byte 0x01 7 y_coord
    (bitStep sprite_byte 0x02 6 y_coord
      (bitStep sprite_byte 0x04 5 y_coord
        (bitStep sprite_byte 0x08 4 y_coord
          (bitStep sprite_byte 0x10 3 y_coord
            (bitStep sprite_byte 0x20 2 y_coord
              (bitStep sprite_byte 0x40 1 y_coord
                (bitStep sprite_byte 0x80 0 y_coord acc)))))))

/-- `C8Interpreter._draw_sprite_to_internal`: wrap the origin, clip the row
and column counts, XOR the sprite into `gfx` accumulating the collision OR,
then write `V[0xF]` and set `draw_flag`. -/
def draw_sprite_to_internal (s : C8State) (x y n I : Nat) : C8State :=
  let x := x % 64
  let y := y % 32
  let max_rows := min n (32 - y)
  let max_cols := min 8 (64 - x)
  let res :=
    if max_cols = 8 then
      (List.range max_rows).foldl
        (fun acc row => unrolledRow (s.memory (I + row)) ((y + row) * 64 + x) acc)
        (s.gfx, 0)
    else
      (List.range max_rows).foldl
        (fun acc row =>
          (List.range max_cols).foldl
            (colStep (s.memory (I + row)) ((y + row) * 64 + x)) acc)
        (s.gfx, 0)
  { s with gfx := res.1,
           V := upd s.V 0xF (if res.2 ≠ 0 then 1 else 0),
           draw_flag := true }

/-! ## The FX0A release-edge scan -/

/-- The `for i in range(16)` loop of opcode FX0A starting at index `i`:
the first `i < 16` with `prev_keys[i] == 1 and not keys[i]`, if any. -/
def findReleaseFrom (prev keys : Nat → Nat) (i : Nat) : Option Nat :=
  if h : i < 16 then
    if prev i = 1 ∧ keys i = 0 then some i else findReleaseFrom prev keys (i + 1)
  else none
termination_by 16 - i
decreasing_by omega

/-! ## One fetch-decode-execute step (`C8Interpreter.emulate_instruction`) -/

/-- One iteration of the `for _ in range(how_many)` loop of
`C8Interpreter.emulate_instruction`: fetch the big-endian word at `pc`,
advance `pc` by 2, and dispatch exactly as the source's `elif` chain does.
`rnd` stands for the `randint(0, 255)` sample used by CXNN.  Returns `none`
only where the source raises (`stack.pop()` on an empty stack).  Python
stores the `overflow` booleans of the 8XY* family directly in `V[0xF]`;
`True`/`False` are the numbers 1/0 there, modelled as `if _ then 1 else 0`.
Python evaluates `(V[x] - V[y]) & 255` on unbounded signed integers, which
is the mathematical mod 256, i.e. `Int.emod`. -/
def step (rnd : Nat) (s : C8State) : Option C8State :=
  let opcode := (s.memory s.pc <<< 8) ||| s.memory (s.pc + 1)
  let pc := s.pc + 2
  let first_nibble := opcode &&& 0xF000
  if first_nibble = 0xD000 then
    let s1 := draw_sprite_to_internal s (s.V ((opcode &&& 0x0F00) >>> 8))
      (s.V ((opcode &&& 0x00F0) >>> 4)) (opcode &&& 0x000F) s.I
    some { s1 with pc := pc }
  else if first_nibble = 0x4000 then
    some { s with pc := if s.V ((opcode &&& 0x0F00) >>> 8) ≠ (opcode &&& 0x00FF) then pc + 2 else pc }
  else if first_nibble = 0x7000 then
    let x := (opcode &&& 0x0F00) >>> 8
    some { s with V := upd s.V x ((s.V x + (opcode &&& 0x00FF)) &&& 255), pc := pc }
  else if first_nibble = 0x0000 then
    if opcode = 0x00E0 then
      some { s with gfx := fun _ => 0, draw_flag := true, pc := pc }
    else if opcode = 0x00EE then
      match s.stack with
      | [] => none
      | p :: rest => some { s with pc := p, stack := rest }
    else
      some { s with pc := pc }
  else if first_nibble = 0x1000 then
    some { s with pc := opcode &&& 0x0FFF }
  else if first_nibble = 0x2000 then
    some { s with stack := pc :: s.stack, pc := opcode &&& 0x0FFF }
  else if first_nibble = 0x3000 then
    some { s with pc := if s.V ((opcode &&& 0x0F00) >>> 8) = (opcode &&& 0x00FF) then pc + 2 else pc }
  else if first_nibble = 0x5000 then
    some { s with pc := if s.V ((opcode &&& 0x0F00) >>> 8) = s.V ((opcode &&& 0x00F0) >>> 4) then pc + 2 else pc }
  else if first_nibble = 0x6000 then
    some { s with V := upd s.V ((opcode &&& 0x0F00) >>> 8) (opcode &&& 0x00FF), pc := pc }
  else if first_nibble = 0x8000 then
    let last_nibble := opcode &&& 0x000F
    let x := (opcode &&& 0x0F00) >>> 8
    let y := (opcode &&& 0x00F0) >>> 4
    if last_nibble = 0x0000 then
      some { s with V := upd s.V x (s.V y), pc := pc }
    else if last_nibble = 0x0001 then
      some { s with V := upd (upd s.V x (s.V x ||| s.V y)) 0xF 0, pc := pc }
    else if last_nibble = 0x0002 then
      some { s with V := upd (upd s.V x (s.V x &&& s.V y)) 0xF 0, pc := pc }
    else if last_nibble = 0x0003 then
      some { s with V := upd (upd s.V x (s.V x ^^^ s.V y)) 0xF 0, pc := pc }
    else if last_nibble = 0x0004 then
      let overflow := s.V x + s.V y > 255
      let v2 := upd (upd s.V x ((s.V x + s.V y) &&& 255)) 0xF (if overflow then 1 else 0)
      some { s with V := v2, pc := pc }
    else if last_nibble = 0x0005 then
      let overflow := s.V x ≥ s.V y
      let v2 := upd (upd s.V x (((s.V x : Int) - (s.V y : Int)) % 256).toNat) 0xF (if overflow then 1 else 0)
      some { s with V := v2, pc := pc }
    else if last_nibble = 0x0006 then
      let v1 := upd s.V x (s.V y)
      let overflow := v1 x &&& 0x01
      some { s with V := upd (upd v1 x ((v1 x >>> 1) &&& 255)) 0xF overflow, pc := pc }
    else if last_nibble = 0x0007 then
      let overflow := s.V y ≥ s.V x
      let v2 := upd (upd s.V x (((s.V y : Int) - (s.V x : Int)) % 256).toNat) 0xF (if overflow then 1 else 0)
      some { s with V := v2, pc := pc }
    else if last_nibble = 0x000E then
      let v1 := upd s.V x (s.V y)
      let overflow := (v1 x &&& 0x80) >>> 7
      some { s with V := upd (upd v1 x ((v1 x <<< 1) &&& 255)) 0xF overflow, pc := pc }
    else
      some { s with pc := pc }
  else if first_nibble = 0x9000 then
    some { s with pc := if s.V ((opcode &&& 0x0F00) >>> 8) ≠ s.V ((opcode &&& 0x00F0) >>> 4) then pc + 2 else pc }
  else if first_nibble = 0xA000 then
    some { s with I := opcode &&& 0x0FFF, pc := pc }
  else if first_nibble = 0xB000 then
    some { s with pc := (opcode &&& 0x0FFF) + s.V 0 }
  else if first_nibble = 0xC000 then
    some { s with V := upd s.V ((opcode &&& 0x0F00) >>> 8) (rnd &&& opcode &&& 0x00FF), pc := pc }
  else if first_nibble = 0xE000 then
    let nibbles := opcode &&& 0x00FF
    if nibbles = 0x009E then
      some { s with pc := if s.keys (s.V ((opcode &&& 0x0F00) >>> 8)) ≠ 0 then pc + 2 else pc }
    else if nibbles = 0x00A1 then
      some { s with pc := if s.keys (s.V ((opcode &&& 0x0F00) >>> 8)) = 0 then pc + 2 else pc }
    else
      some { s with pc := pc }
  else if first_nibble = 0xF000 then
    let nibbles := opcode &&& 0x00FF
    if nibbles = 0x0007 then
      some { s with V := upd s.V ((opcode &&& 0x0F00) >>> 8) s.delay_timer, pc := pc }
    else if nibbles = 0x000A then
      match findReleaseFrom s.prev_keys s.keys 0 with
      | some i => some { s with V := upd s.V ((opcode &&& 0x0F00) >>> 8) i, pc := pc }
      | none => some { s with pc := pc - 2 }
    else if nibbles = 0x0015 then
      some { s with delay_timer := s.V ((opcode &&& 0x0F00) >>> 8), pc := pc }
    else if nibbles = 0x0018 then
      some { s with sound_timer := s.V ((opcode &&& 0x0F00) >>> 8), pc := pc }
    else if nibbles = 0x001E then
      let x := (opcode &&& 0x0F00) >>> 8
      some { s with I := (s.I + s.V x) &&& 0x0FFF, pc := pc }
    else if nibbles = 0x0029 then
      some { s with I := 0x50 + s.V ((opcode &&& 0x0F00) >>> 8) * 5, pc := pc }
    else if nibbles = 0x0033 then
      let vx := s.V ((opcode &&& 0x0F00) >>> 8)
      let mem3 := upd (upd (upd s.memory s.I (vx / 100)) (s.I + 1) (vx / 10 % 10)) (s.I + 2) (vx % 10)
      some { s with memory := mem3, pc := pc }
    else if nibbles = 0x0055 then
      let x := (opcode &&& 0x0F00) >>> 8
      let mem2 := fun a => if s.I ≤ a ∧ a < s.I + (x + 1) then s.V (a - s.I) else s.memory a
      some { s with memory := mem2, I := s.I + (x + 1), pc := pc }
    else if nibbles = 0x0065 then
      let x := (opcode &&& 0x0F00) >>> 8
      let v2 := fun i => if i < x + 1 then s.memory (s.I + i) else s.V i
      some { s with V := v2, I := s.I + (x + 1), pc := pc }
    else
      some { s with pc := pc }
  else
    some { s with pc := pc }

/-- `C8Interpreter.emulate_instruction(how_many)`: `how_many` sequential
steps, one random-oracle byte per step (`how_many = rnds.length`). -/
def emulate_instruction (rnds : List Nat) (s : C8State) : Option C8State :=
  match rnds with
  | [] => some s
  | r :: rest =>
    match step r s with
    | none => none
    | some s1 => emulate_instruction rest s1

/-! ## Initialization (`C8Interpreter.__init__`, `_load_rom`, `_load_fontset`) -/

/-- `C8Interpreter._load_rom`: reject a ROM longer than `4096 - 0x200` bytes
(the source raises `ValueError("ROM too large to fit in memory")`), otherwise
copy it into memory starting at 0x200.  The pair keeps the memory that the
interpreter object holds after the call: unchanged when the error is raised,
since the raise happens before any write. -/
def load_rom (memory : Nat → Nat) (rom : List Nat) : Option String × (Nat → Nat) :=
  if rom.length > 4096 - 0x200 then
    (some "ROM too large to fit in memory", memory)
  else
    (none, fun a => if 0x200 ≤ a ∧ a < 0x200 + rom.length then rom.getD (a - 0x200) 0 else memory a)

/-- The 80 fontset bytes of `C8Interpreter._load_fontset`, glyphs 0-F in
source order, 5 bytes per glyph. -/
def fontset : List Nat :=
  [0xF0, 0x90, 0x90, 0x90, 0xF0,
   0x20, 0x60, 0x20, 0x20, 0x70,
   0xF0, 0x10, 0xF0, 0x80, 0xF0,
   0xF0, 0x10, 0xF0, 0x10, 0xF0,
   0x90, 0x90, 0xF0, 0x10, 0x10,
   0xF0, 0x80, 0xF0, 0x10, 0xF0,
   0xF0, 0x80, 0xF0, 0x90, 0xF0,
   0xF0, 0x10, 0x20, 0x40, 0x40,
   0xF0, 0x90, 0xF0, 0x90, 0xF0,
   0xF0, 0x90, 0xF0, 0x10, 0xF0,
   0xF0, 0x90, 0xF0, 0x90, 0x90,
   0xE0, 0x90, 0xE0, 0x90, 0xE0,
   0xF0, 0x80, 0x80, 0x80, 0xF0,
   0xE0, 0x90, 0x90, 0x90, 0xE0,
   0xF0, 0x80, 0xF0, 0x80, 0xF0,
   0xF0, 0x80, 0xF0, 0x80, 0x80]

/-- `C8Interpreter._load_fontset`: copy the 80 fontset bytes to 0x50-0x9F. -/
def load_fontset (memory : Nat → Nat) : Nat → Nat :=
  fun a => if 0x50 ≤ a ∧ a < 0x50 + 80 then fontset.getD (a - 0x50) 0 else memory a

/-- `C8Interpreter.__init__` restricted to the interpreter core: zeroed state,
`pc = 0x200`, then `_load_rom` (whose failure aborts construction) followed by
`_load_fontset`. -/
def initInterpreter (rom : List Nat) : Option C8State :=
  match load_rom (fun _ => 0) rom with
  | (some _, _) => none
  | (none, mem1) =>
    some { memory := load_fontset mem1
           V := fun _ => 0
           I := 0
           pc := 0x200
           gfx := fun _ => 0
           draw_flag := false
           delay_timer := 0
           sound_timer := 0
           stack := []
           keys := fun _ => 0
           prev_keys := fun _ => 0 }

/-- Modelled from the spec: the opcode table of section 4.2 lists exactly 35
documented patterns; this predicate holds of a 16-bit word exactly when it
matches one of them (the source has no such table, only its `elif` dispatch,
so the set of documented patterns is taken from the spec's words). -/
def specDocumented (w : Nat) : Bool :=
  let hi := w &&& 0xF000
  let lo4 := w &&& 0x000F
  let lo8 := w &&& 0x00FF
  decide (w = 0x00E0) || decide (w = 0x00EE) ||
  decide (hi = 0x1000) || decide (hi = 0x2000) || decide (hi = 0x3000) ||
  decide (hi = 0x4000) ||
  (decide (hi = 0x5000) && decide (lo4 = 0)) ||
  decide (hi = 0x6000) || decide (hi = 0x7000) ||
  (decide (hi = 0x8000) && decide (lo4 ≤ 7 ∨ lo4 = 0xE)) ||
  (decide (hi = 0x9000) && decide (lo4 = 0)) ||
  decide (hi = 0xA000) || decide (hi = 0xB000) || decide (hi = 0xC000) ||
  decide (hi = 0xD000) ||
  (decide (hi = 0xE000) && (decide (lo8 = 0x9E) || decide (lo8 = 0xA1))) ||
  (decide (hi = 0xF000) &&
    decide (lo8 = 0x07 ∨ lo8 = 0x0A ∨ lo8 = 0x15 ∨ lo8 = 0x18 ∨ lo8 = 0x1E ∨
            lo8 = 0x29 ∨ lo8 = 0x33 ∨ lo8 = 0x55 ∨ lo8 = 0x65))

/-- The value-range invariant of the interpreter state: every register,
every memory cell and both timers hold a byte. -/
def Inv (s : C8State) : Prop :=
  (∀ i, s.V i ≤ 255) ∧ (∀ a, s.memory a ≤ 255) ∧
  s.delay_timer ≤ 255 ∧ s.sound_timer ≤ 255

/-! ## Bit-field arithmetic for the opcode masks -/

theorem and_mask_shiftLeft (x m k : Nat) : x &&& (m <<< k) = ((x >>> k) &&& m) <<< k := by
  apply Nat.eq_of_testBit_eq
  intro i
  simp only [Nat.testBit_and, Nat.testBit_shiftLeft, Nat.testBit_shiftRight]
  by_cases h : k ≤ i
  · have hki : k + (i - k) = i := by omega
    simp [ge_iff_le, h, hki]
  · simp [ge_iff_le, h]

theorem shiftLeft8_or (hi lo : Nat) (hlo : lo < 256) : (hi <<< 8) ||| lo = hi * 256 + lo := by
  have h : 2 ^ 8 * hi + lo = 2 ^ 8 * hi ||| lo :=
    Nat.mul_add_lt_is_or (by norm_num [hlo]) hi
  calc (hi <<< 8) ||| lo = 2 ^ 8 * hi ||| lo := by rw [Nat.shiftLeft_eq, Nat.mul_comm]
    _ = 2 ^ 8 * hi + lo := h.symm
    _ = hi * 256 + lo := by omega

theorem and_00FF (w : Nat) : w &&& 0x00FF = w % 256 := by
  have h := Nat.and_pow_two_sub_one_eq_mod w 8
  norm_num at h
  exact h

theorem and_000F (w : Nat) : w &&& 0x000F = w % 16 := by
  have h := Nat.and_pow_two_sub_one_eq_mod w 4
  norm_num at h
  exact h

theorem and_0FFF (w : Nat) : w &&& 0x0FFF = w % 4096 := by
  have h := Nat.and_pow_two_sub_one_eq_mod w 12
  norm_num at h
  exact h

theorem and_F000 (w : Nat) : w &&& 0xF000 = w / 4096 % 16 * 4096 := by
  have hm : (0xF000 : Nat) = 15 <<< 12 := by norm_num [Nat.shiftLeft_eq]
  rw [hm, and_mask_shiftLeft, Nat.shiftRight_eq_div_pow, Nat.shiftLeft_eq]
  have h := Nat.and_pow_two_sub_one_eq_mod (w / 2 ^ 12) 4
  norm_num at h ⊢
  rw [h]

theorem and_0F00_shift (w : Nat) : (w &&& 0x0F00) >>> 8 = w / 256 % 16 := by
  have hm : (0x0F00 : Nat) = 15 <<< 8 := by norm_num [Nat.shiftLeft_eq]
  rw [hm, and_mask_shiftLeft, Nat.shiftRight_eq_div_pow, Nat.shiftRight_eq_div_pow,
    Nat.shiftLeft_eq]
  have h := Nat.and_pow_two_sub_one_eq_mod (w / 2 ^ 8) 4
  norm_num at h ⊢
  rw [h]

theorem and_00F0_shift (w : Nat) : (w &&& 0x00F0) >>> 4 = w / 16 % 16 := by
  have hm : (0x00F0 : Nat) = 15 <<< 4 := by norm_num [Nat.shiftLeft_eq]
  rw [hm, and_mask_shiftLeft, Nat.shiftRight_eq_div_pow, Nat.shiftRight_eq_div_pow,
    Nat.shiftLeft_eq]
  have h := Nat.and_pow_two_sub_one_eq_mod (w / 2 ^ 4) 4
  norm_num at h ⊢
  rw [h]

theorem upd_upd_same (f : Nat → Nat) (i a b : Nat) : upd (upd f i a) i b = upd f i b := by
  funext j
  by_cases h : j = i <;> simp [upd, h]

/-! ## Step equations, one per opcode shape the claims mention -/

theorem step_7XNN (rnd : Nat) (s : C8State) (x nn : Nat) (hx : x < 16) (hnn : nn < 256)
    (h0 : s.memory s.pc = 0x70 + x) (h1 : s.memory (s.pc + 1) = nn) :
    step rnd s = some { s with V := upd s.V x ((s.V x + nn) &&& 255), pc := s.pc + 2 } := by
  simp only [step]
  rw [h0, h1, shiftLeft8_or _ _ hnn, and_F000, and_0F00_shift, and_00FF]
  rw [show ((0x70 + x) * 256 + nn) / 4096 % 16 * 4096 = 0x7000 by omega]
  rw [show ((0x70 + x) * 256 + nn) / 256 % 16 = x by omega]
  rw [show ((0x70 + x) * 256 + nn) % 256 = nn by omega]
  norm_num

theorem step_8XY4 (rnd : Nat) (s : C8State) (x y : Nat) (hx : x < 16) (hy : y < 16)
    (h0 : s.memory s.pc = 0x80 + x) (h1 : s.memory (s.pc + 1) = 16 * y + 4) :
    step rnd s = some { s with
      V := upd (upd s.V x ((s.V x + s.V y) &&& 255)) 0xF (if s.V x + s.V y > 255 then 1 else 0),
      pc := s.pc + 2 } := by
  simp only [step]
  rw [h0, h1, shiftLeft8_or _ _ (by omega), and_F000, and_0F00_shift, and_00F0_shift, and_000F]
  rw [show ((0x80 + x) * 256 + (16 * y + 4)) / 4096 % 16 * 4096 = 0x8000 by omega]
  rw [show ((0x80 + x) * 256 + (16 * y + 4)) / 256 % 16 = x by omega]
  rw [show ((0x80 + x) * 256 + (16 * y + 4)) / 16 % 16 = y by omega]
  rw [show ((0x80 + x) * 256 + (16 * y + 4)) % 16 = 4 by omega]
  norm_num

theorem step_8XY5 (rnd : Nat) (s : C8State) (x y : Nat) (hx : x < 16) (hy : y < 16)
    (h0 : s.memory s.pc = 0x80 + x) (h1 : s.memory (s.pc + 1) = 16 * y + 5) :
    step rnd s = some { s with
      V := upd (upd s.V x (((s.V x : Int) - (s.V y : Int)) % 256).toNat) 0xF
        (if s.V x ≥ s.V y then 1 else 0),
      pc := s.pc + 2 } := by
  simp only [step]
  rw [h0, h1, shiftLeft8_or _ _ (by omega), and_F000, and_0F00_shift, and_00F0_shift, and_000F]
  rw [show ((0x80 + x) * 256 + (16 * y + 5)) / 4096 % 16 * 4096 = 0x8000 by omega]
  rw [show ((0x80 + x) * 256 + (16 * y + 5)) / 256 % 16 = x by omega]
  rw [show ((0x80 + x) * 256 + (16 * y + 5)) / 16 % 16 = y by omega]
  rw [show ((0x80 + x) * 256 + (16 * y + 5)) % 16 = 5 by omega]
  norm_num

theorem step_8XY6 (rnd : Nat) (s : C8State) (x y : Nat) (hx : x < 16) (hy : y < 16)
    (h0 : s.memory s.pc = 0x80 + x) (h1 : s.memory (s.pc + 1) = 16 * y + 6) :
    step rnd s = some { s with
      V := upd (upd s.V x ((s.V y >>> 1) &&& 255)) 0xF (s.V y &&& 0x01),
      pc := s.pc + 2 } := by
  simp only [step]
  rw [h0, h1, shiftLeft8_or _ _ (by omega), and_F000, and_0F00_shift, and_00F0_shift, and_000F]
  rw [show ((0x80 + x) * 256 + (16 * y + 6)) / 4096 % 16 * 4096 = 0x8000 by omega]
  rw [show ((0x80 + x) * 256 + (16 * y + 6)) / 256 % 16 = x by omega]
  rw [show ((0x80 + x) * 256 + (16 * y + 6)) / 16 % 16 = y by omega]
  rw [show ((0x80 + x) * 256 + (16 * y + 6)) % 16 = 6 by omega]
  rw [upd_same, upd_upd_same]
  norm_num

theorem step_8XY7 (rnd : Nat) (s : C8State) (x y : Nat) (hx : x < 16) (hy : y < 16)
    (h0 : s.memory s.pc = 0x80 + x) (h1 : s.memory (s.pc + 1) = 16 * y + 7) :
    step rnd s = some { s with
      V := upd (upd s.V x (((s.V y : Int) - (s.V x : Int)) % 256).toNat) 0xF
        (if s.V y ≥ s.V x then 1 else 0),
      pc := s.pc + 2 } := by
  simp only [step]
  rw [h0, h1, shiftLeft8_or _ _ (by omega), and_F000, and_0F00_shift, and_00F0_shift, and_000F]
  rw [show ((0x80 + x) * 256 + (16 * y + 7)) / 4096 % 16 * 4096 = 0x8000 by omega]
  rw [show ((0x80 + x) * 256 + (16 * y + 7)) / 256 % 16 = x by omega]
  rw [show ((0x80 + x) * 256 + (16 * y + 7)) / 16 % 16 = y by omega]
  rw [show ((0x80 + x) * 256 + (16 * y + 7)) % 16 = 7 by omega]
  norm_num

theorem step_8XYE (rnd : Nat) (s : C8State) (x y : Nat) (hx : x < 16) (hy : y < 16)
    (h0 : s.memory s.pc = 0x80 + x) (h1 : s.memory (s.pc + 1) = 16 * y + 0xE) :
    step rnd s = some { s with
      V := upd (upd s.V x ((s.V y <<< 1) &&& 255)) 0xF ((s.V y &&& 0x80) >>> 7),
      pc := s.pc + 2 } := by
  simp only [step]
  rw [h0, h1, shiftLeft8_or _ _ (by omega), and_F000, and_0F00_shift, and_00F0_shift, and_000F]
  rw [show ((0x80 + x) * 256 + (16 * y + 0xE)) / 4096 % 16 * 4096 = 0x8000 by omega]
  rw [show ((0x80 + x) * 256 + (16 * y + 0xE)) / 256 % 16 = x by omega]
  rw [show ((0x80 + x) * 256 + (16 * y + 0xE)) / 16 % 16 = y by omega]
  rw [show ((0x80 + x) * 256 + (16 * y + 0xE)) % 16 = 0xE by omega]
  rw [upd_same]
  norm_num
  rw [upd_upd_same]

/-! ## Small conversions between bit operations and arithmetic -/

theorem updVF_at_x (f : Nat → Nat) (x r fl : Nat) (hx : x ≠ 0xF) :
    upd (upd f x r) 0xF fl x = r := by
  rw [upd_other _ _ _ _ hx, upd_same]

theorem and1_eq_mod (v : Nat) : v &&& 0x01 = v % 2 :=
  Nat.and_one_is_mod v

theorem shr1_eq_div (v : Nat) : v >>> 1 = v / 2 := by
  rw [Nat.shiftRight_eq_div_pow]

theorem shl1_eq_mul (v : Nat) : v <<< 1 = 2 * v := by
  rw [Nat.shiftLeft_eq]
  omega

theorem bit7_eq_div (v : Nat) (hv : v ≤ 255) : (v &&& 0x80) >>> 7 = v / 128 := by
  have h := Nat.and_two_pow v 7
  norm_num at h
  rw [h, Nat.shiftRight_eq_div_pow]
  norm_num
  rw [Nat.testBit_to_div_mod]
  norm_num
  have h1 : v / 128 = 0 ∨ v / 128 = 1 := by omega
  rcases h1 with h1 | h1 <;> simp [h1]

/-- A concrete all-zero state whose memory holds the two instruction bytes
`b0 b1` at 0x200 (where `pc` points) and whose registers are `regs`. -/
def cexState (b0 b1 : Nat) (regs : Nat → Nat) : C8State :=
  { memory := fun a => if a = 0x200 then b0 else if a = 0x201 then b1 else 0
    V := regs
    I := 0
    pc := 0x200
    gfx := fun _ => 0
    draw_flag := false
    delay_timer := 0
    sound_timer := 0
    stack := []
    keys := fun _ => 0
    prev_keys := fun _ => 0 }

/-! ## Claim C2 -/

/-- C2, counterexample: executing 8XY6 with X = F (opcode 8F26, V2 = 2) does
not store VY shifted right into VX — the final VF (which is VX here) is the
flag 0, not the shift result 1, because the source writes VF last. -/
theorem claim2_counterexample :
    (step 0 (cexState 0x8F 0x26 (fun i => if i = 2 then 2 else 0))).map (fun t => t.V 0xF) =
      some 0 ∧
    (cexState 0x8F 0x26 (fun i => if i = 2 then 2 else 0)).V 2 >>> 1 = 1 := by
  constructor <;> decide

/-- C2 (amended): for every machine state and X ≠ F, executing 8XY6
(respectively 8XYE) sets VF to bit0 (respectively bit7) of the source
register VY read before the shift — not to any bit of the destination's
prior value — and stores VY shifted right (respectively left, mod 256) by
one into VX; when X = F the flag write is last and supersedes the result
(claim C4). -/
theorem claim2_shift_uses_source (rnd : Nat) (s : C8State) (x y : Nat)
    (hx : x < 16) (hxF : x ≠ 0xF) (hy : y < 16) (hv : s.V y ≤ 255) :
    (s.memory s.pc = 0x80 + x → s.memory (s.pc + 1) = 16 * y + 6 →
      (step rnd s).map (fun t => (t.V x, t.V 0xF)) = some (s.V y / 2, s.V y % 2)) ∧
    (s.memory s.pc = 0x80 + x → s.memory (s.pc + 1) = 16 * y + 0xE →
      (step rnd s).map (fun t => (t.V x, t.V 0xF)) = some (2 * s.V y % 256, s.V y / 128)) := by
  constructor
  · intro h0 h1
    rw [step_8XY6 rnd s x y hx hy h0 h1]
    simp only [Option.map_some']
    congr 1
    rw [updVF_at_x _ _ _ _ hxF, upd_same, and1_eq_mod, shr1_eq_div, and_00FF]
    congr 1
    omega
  · intro h0 h1
    rw [step_8XYE rnd s x y hx hy h0 h1]
    simp only [Option.map_some']
    congr 1
    rw [updVF_at_x _ _ _ _ hxF, upd_same, bit7_eq_div _ hv, shl1_eq_mul, and_00FF]

/-- C2 witness: 8016 with V1 = 5 stores 2 in V0 and 1 in VF. -/
theorem claim2_witness :
    (step 0 (cexState 0x80 0x16 (fun i => if i = 1 then 5 else 0))).map
      (fun t => (t.V 0, t.V 0xF)) = some (2, 1) :=
  (claim2_shift_uses_source 0 (cexState 0x80 0x16 (fun i => if i = 1 then 5 else 0)) 0 1
    (by norm_num) (by norm_num) (by norm_num) (by decide)).1 (by decide) (by decide)

/-! ## Claim C3 -/

/-- C3, counterexample: executing 8XY4 with X = F (opcode 8F04, VF = 100,
V0 = 100) does not store (VX+VY) mod 256 = 200 in VX: VX is VF and ends
holding the carry 0, because the source writes VF last. -/
theorem claim3_counterexample :
    (step 0 (cexState 0x8F 0x04 (fun i => if i = 0xF then 100 else if i = 0 then 100 else 0))).map
      (fun t => t.V 0xF) = some 0 ∧
    ((cexState 0x8F 0x04 (fun i => if i = 0xF then 100 else if i = 0 then 100 else 0)).V 0xF +
     (cexState 0x8F 0x04 (fun i => if i = 0xF then 100 else if i = 0 then 100 else 0)).V 0) % 256 =
      200 := by
  constructor <;> decide

/-- C3 (amended): 7XNN stores (VX + NN) mod 256 in VX; 8XY4 sets VF to 1
exactly when the unclipped sum exceeds 255 (else 0) and, when X ≠ F, stores
(VX + VY) mod 256 in VX (when X = F the flag write supersedes the sum,
claim C4); in both cases the stored result lies in [0, 255]. -/
theorem claim3_add_mod256 (rnd : Nat) (s : C8State) :
    (∀ x nn, x < 16 → nn < 256 → s.memory s.pc = 0x70 + x → s.memory (s.pc + 1) = nn →
      (step rnd s).map (fun t => t.V x) = some ((s.V x + nn) % 256) ∧
      (s.V x + nn) % 256 ≤ 255) ∧
    (∀ x y, x < 16 → y < 16 → s.memory s.pc = 0x80 + x → s.memory (s.pc + 1) = 16 * y + 4 →
      (step rnd s).map (fun t => t.V 0xF) = some (if s.V x + s.V y > 255 then 1 else 0) ∧
      (x ≠ 0xF →
        (step rnd s).map (fun t => t.V x) = some ((s.V x + s.V y) % 256) ∧
        (s.V x + s.V y) % 256 ≤ 255)) := by
  constructor
  · intro x nn hx hnn h0 h1
    rw [step_7XNN rnd s x nn hx hnn h0 h1]
    simp only [Option.map_some']
    constructor
    · rw [upd_same, and_00FF]
    · omega
  · intro x y hx hy h0 h1
    rw [step_8XY4 rnd s x y hx hy h0 h1]
    simp only [Option.map_some']
    constructor
    · rw [upd_same]
    · intro hxF
      constructor
      · rw [updVF_at_x _ _ _ _ hxF, and_00FF]
      · omega

/-- C3 witness: 7005 with V0 = 250 gives V0 = 255; 8014 with V0 = 200,
V1 = 100 gives VF = 1. -/
theorem claim3_witness :
    (step 0 (cexState 0x70 0x05 (fun i => if i = 0 then 250 else 0))).map
      (fun t => t.V 0) = some 255 ∧
    (step 0 (cexState 0x80 0x14 (fun i => if i = 0 then 200 else if i = 1 then 100 else 0))).map
      (fun t => t.V 0xF) = some 1 := by
  constructor
  · exact ((claim3_add_mod256 0 (cexState 0x70 0x05 (fun i => if i = 0 then 250 else 0))).1
      0 5 (by norm_num) (by norm_num) (by decide) (by decide)).1
  · exact ((claim3_add_mod256 0
      (cexState 0x80 0x14 (fun i => if i = 0 then 200 else if i = 1 then 100 else 0))).2
      0 1 (by norm_num) (by norm_num) (by decide) (by decide)).1

/-! ## Claim C4 -/

/-- C4: for each flag-writing opcode of the 8XY4/8XY5/8XY6/8XY7/8XYE family
executed with X = F, VF is written last: its final value is the flag (carry,
no-borrow, or pre-shift bit of the source), computed from the operand values
read before any write — not the arithmetic or shift result. -/
theorem claim4_flag_written_last (rnd : Nat) (s : C8State) (y : Nat) (hy : y < 16) :
    (s.memory s.pc = 0x8F → s.memory (s.pc + 1) = 16 * y + 4 →
      (step rnd s).map (fun t => t.V 0xF) = some (if s.V 0xF + s.V y > 255 then 1 else 0)) ∧
    (s.memory s.pc = 0x8F → s.memory (s.pc + 1) = 16 * y + 5 →
      (step rnd s).map (fun t => t.V 0xF) = some (if s.V 0xF ≥ s.V y then 1 else 0)) ∧
    (s.memory s.pc = 0x8F → s.memory (s.pc + 1) = 16 * y + 6 →
      (step rnd s).map (fun t => t.V 0xF) = some (s.V y &&& 0x01)) ∧
    (s.memory s.pc = 0x8F → s.memory (s.pc + 1) = 16 * y + 7 →
      (step rnd s).map (fun t => t.V 0xF) = some (if s.V y ≥ s.V 0xF then 1 else 0)) ∧
    (s.memory s.pc = 0x8F → s.memory (s.pc + 1) = 16 * y + 0xE →
      (step rnd s).map (fun t => t.V 0xF) = some ((s.V y &&& 0x80) >>> 7)) := by
  refine ⟨fun h0 h1 => ?_, fun h0 h1 => ?_, fun h0 h1 => ?_, fun h0 h1 => ?_, fun h0 h1 => ?_⟩
  · rw [step_8XY4 rnd s 0xF y (by norm_num) hy (by omega) h1]
    simp only [Option.map_some']
    rw [upd_same]
  · rw [step_8XY5 rnd s 0xF y (by norm_num) hy (by omega) h1]
    simp only [Option.map_some']
    rw [upd_same]
  · rw [step_8XY6 rnd s 0xF y (by norm_num) hy (by omega) h1]
    simp only [Option.map_some']
    rw [upd_same]
  · rw [step_8XY7 rnd s 0xF y (by norm_num) hy (by omega) h1]
    simp only [Option.map_some']
    rw [upd_same]
  · rw [step_8XYE rnd s 0xF y (by norm_num) hy (by omega) h1]
    simp only [Option.map_some']
    rw [upd_same]

/-- C4 witness: 8F04 with VF = 200, V0 = 100 ends with VF = 1 (the carry),
not the sum 44. -/
theorem claim4_witness :
    (step 0 (cexState 0x8F 0x04 (fun i => if i = 0xF then 200 else if i = 0 then 100 else 0))).map
      (fun t => t.V 0xF) = some 1 := by
  have h := (claim4_flag_written_last 0
    (cexState 0x8F 0x04 (fun i => if i = 0xF then 200 else if i = 0 then 100 else 0))
    0 (by norm_num)).1 (by decide) (by decide)
  rw [h]
  decide

/-! ## Claim C9 -/

/-- C9: initialization fails exactly when the program image is longer than
4096 − 0x200 = 3584 bytes, and on failure no program byte is written into
memory (`_load_rom` raises before its copy loop). -/
theorem claim9_rom_too_large (rom : List Nat) (mem : Nat → Nat) :
    ((initInterpreter rom).isNone ↔ rom.length > 4096 - 0x200) ∧
    (rom.length > 4096 - 0x200 → (load_rom mem rom).2 = mem) := by
  constructor
  · unfold initInterpreter load_rom
    by_cases h : rom.length > 4096 - 0x200 <;> simp [h]
  · intro h
    unfold load_rom
    simp [h]

/-- C9 witness: a 3585-byte image is rejected and leaves memory untouched;
a 3584-byte image is accepted. -/
theorem claim9_witness :
    (initInterpreter (List.replicate 3585 0)).isNone = true ∧
    (load_rom (fun _ => 7) (List.replicate 3585 0)).2 0x300 = 7 := by
  have h := claim9_rom_too_large (List.replicate 3585 0) (fun _ => 7)
  constructor
  · exact h.1.mpr (by rw [List.length_replicate]; norm_num)
  · rw [congrFun (h.2 (by rw [List.length_replicate]; norm_num)) 0x300]

/-! ## Claim C7: the FX0A busy-wait -/

theorem findReleaseFrom_none (prev keys : Nat → Nat)
    (h : ∀ i, i < 16 → ¬(prev i = 1 ∧ keys i = 0)) :
    ∀ fuel k, 16 - k ≤ fuel → findReleaseFrom prev keys k = none := by
  intro fuel
  induction fuel with
  | zero =>
    intro k hk
    rw [findReleaseFrom]
    have hlt : ¬k < 16 := by omega
    simp [hlt]
  | succ n ih =>
    intro k hk
    rw [findReleaseFrom]
    by_cases hlt : k < 16
    · have hcond := h k hlt
      simp only [hlt, dif_pos, hcond, if_neg, not_false_eq_true]
      exact ih (k + 1) (by omega)
    · simp [hlt]

theorem findReleaseFrom_first (prev keys : Nat → Nat) (i0 : Nat) (hi0 : i0 < 16)
    (hedge : prev i0 = 1 ∧ keys i0 = 0)
    (hfirst : ∀ j, j < i0 → ¬(prev j = 1 ∧ keys j = 0)) :
    ∀ fuel k, k ≤ i0 → i0 - k ≤ fuel → findReleaseFrom prev keys k = some i0 := by
  intro fuel
  induction fuel with
  | zero =>
    intro k hk hfk
    have hki : k = i0 := by omega
    subst hki
    rw [findReleaseFrom]
    simp [hi0, hedge]
  | succ n ih =>
    intro k hk hfk
    rw [findReleaseFrom]
    have hklt : k < 16 := by omega
    by_cases hke : k = i0
    · subst hke
      simp [hklt, hedge]
    · have hcond := hfirst k (by omega)
      simp only [hklt, dif_pos, hcond, if_neg, not_false_eq_true]
      exact ih (k + 1) (by omega) (by omega)

theorem step_FX0A (rnd : Nat) (s : C8State) (x : Nat) (hx : x < 16)
    (h0 : s.memory s.pc = 0xF0 + x) (h1 : s.memory (s.pc + 1) = 0x0A) :
    step rnd s =
      match findReleaseFrom s.prev_keys s.keys 0 with
      | some i => some { s with V := upd s.V x i, pc := s.pc + 2 }
      | none => some { s with pc := s.pc + 2 - 2 } := by
  simp only [step]
  rw [h0, h1, shiftLeft8_or _ _ (by norm_num), and_F000, and_0F00_shift, and_00FF]
  rw [show ((0xF0 + x) * 256 + 0x0A) / 4096 % 16 * 4096 = 0xF000 by omega]
  rw [show ((0xF0 + x) * 256 + 0x0A) / 256 % 16 = x by omega]
  rw [show ((0xF0 + x) * 256 + 0x0A) % 256 = 0x0A by omega]
  norm_num

theorem emulate_one (r : Nat) (s : C8State) : emulate_instruction [r] s = step r s := by
  cases h : step r s <;> simp [emulate_instruction, h]

/-- C7: on an FX0A instruction, `execute(1)` with no pressed-to-released key
edge between the two snapshots leaves the whole state (in particular pc and
VX) unchanged — the fetch advance is undone by the rewind of 2 — while with
a release edge on key `i0` (the lowest-numbered such key, as the source loop
breaks at the first hit) it stores `i0` in VX and advances pc by 2. -/
theorem claim7_fx0a_busy_wait (rnd : Nat) (s : C8State) (x : Nat) (hx : x < 16)
    (h0 : s.memory s.pc = 0xF0 + x) (h1 : s.memory (s.pc + 1) = 0x0A) :
    ((∀ i, i < 16 → ¬(s.prev_keys i = 1 ∧ s.keys i = 0)) →
      emulate_instruction [rnd] s = some s) ∧
    (∀ i0, i0 < 16 → s.prev_keys i0 = 1 → s.keys i0 = 0 →
      (∀ j, j < i0 → ¬(s.prev_keys j = 1 ∧ s.keys j = 0)) →
      emulate_instruction [rnd] s = some { s with V := upd s.V x i0, pc := s.pc + 2 }) := by
  constructor
  · intro h
    rw [emulate_one, step_FX0A rnd s x hx h0 h1,
        findReleaseFrom_none s.prev_keys s.keys h 16 0 (by omega)]
    have h2 : s.pc + 2 - 2 = s.pc := by omega
    show some { s with pc := s.pc + 2 - 2 } = some s
    rw [h2]
  · intro i0 hi0 hp hk hfirst
    rw [emulate_one, step_FX0A rnd s x hx h0 h1,
        findReleaseFrom_first s.prev_keys s.keys i0 hi0 ⟨hp, hk⟩ hfirst i0 0 (by omega) (by omega)]

/-- C7 witness: FX0A with X = 3, no edge: state unchanged; with a release
edge on key 7 (prev pressed, now released): V3 = 7 and pc advanced. -/
theorem claim7_witness :
    emulate_instruction [0] (cexState 0xF3 0x0A (fun _ => 0)) =
      some (cexState 0xF3 0x0A (fun _ => 0)) ∧
    emulate_instruction [0]
      { cexState 0xF3 0x0A (fun _ => 0) with prev_keys := fun i => if i = 7 then 1 else 0 } =
      some { { cexState 0xF3 0x0A (fun _ => 0) with
                prev_keys := fun i => if i = 7 then 1 else 0 } with
              V := upd (cexState 0xF3 0x0A (fun _ => 0)).V 3 7, pc := 0x200 + 2 } := by
  constructor
  · exact (claim7_fx0a_busy_wait 0 (cexState 0xF3 0x0A (fun _ => 0)) 3
      (by norm_num) (by decide) (by decide)).1 (by decide)
  · exact (claim7_fx0a_busy_wait 0
      { cexState 0xF3 0x0A (fun _ => 0) with prev_keys := fun i => if i = 7 then 1 else 0 } 3
      (by norm_num) (by decide) (by decide)).2 7 (by norm_num) (by decide) (by decide) (by decide)

/-! ## Claim C1: undocumented instruction words -/

/-- C1, counterexample: the word 0x5011 matches none of the 35 documented
patterns (high nibble 5 requires low nibble 0), yet executing it with
V0 = V1 is not a pc+2 no-op: the source dispatches 5XY* on the high nibble
alone, runs it as 5XY0, and skips (pc advances by 4, to 0x204). -/
theorem claim1_counterexample :
    specDocumented 0x5011 = false ∧
    (step 0 (cexState 0x50 0x11 (fun _ => 0))).map (fun t => t.pc) = some 0x204 := by
  constructor <;> decide

/-- C1 (amended): every instruction word outside the 35 documented patterns
whose high nibble is not 5 and not 9 is consumed as a no-op — pc advances
by 2, every other part of the state is unchanged, and interpretation is not
aborted.  (Undocumented words with high nibble 5 or 9 are instead executed
as 5XY0/9XY0: the dispatch ignores their low nibble.) -/
theorem claim1_unknown_opcode_noop (rnd : Nat) (s : C8State) (hi lo : Nat)
    (hhi : hi < 256) (hlo : lo < 256)
    (h0 : s.memory s.pc = hi) (h1 : s.memory (s.pc + 1) = lo)
    (hundoc : specDocumented (hi * 256 + lo) = false)
    (h5 : hi / 16 ≠ 5) (h9 : hi / 16 ≠ 9) :
    step rnd s = some { s with pc := s.pc + 2 } := by
  have e_fn : (hi * 256 + lo) / 4096 % 16 = hi / 16 := by omega
  have e_x : (hi * 256 + lo) / 256 % 16 = hi % 16 := by omega
  have e_y : (hi * 256 + lo) / 16 % 16 = lo / 16 := by omega
  have e_nn : (hi * 256 + lo) % 256 = lo := by omega
  have e_n : (hi * 256 + lo) % 16 = lo % 16 := by omega
  have e_nnn : (hi * 256 + lo) % 4096 = hi % 16 * 256 + lo := by omega
  simp only [specDocumented] at hundoc
  rw [and_F000, and_00FF, and_000F, e_fn, e_nn, e_n] at hundoc
  simp only [step]
  rw [h0, h1, shiftLeft8_or _ _ hlo, and_F000, and_0F00_shift, and_00F0_shift, and_00FF,
    and_000F, and_0FFF, e_fn, e_x, e_y, e_nn, e_n, e_nnn]
  obtain ⟨d, hd⟩ : ∃ d, hi / 16 = d := ⟨_, rfl⟩
  rw [hd] at hundoc h5 h9 ⊢
  have hdlt : d < 16 := by omega
  interval_cases d <;> norm_num at hundoc h5 h9 ⊢
  · -- d = 0: not 00E0, not 00EE
    simp [hundoc.1, hundoc.2]
  · -- d = 8
    have c0 : lo % 16 ≠ 0 := by omega
    have c1 : lo % 16 ≠ 1 := by omega
    have c2 : lo % 16 ≠ 2 := by omega
    have c3 : lo % 16 ≠ 3 := by omega
    have c4 : lo % 16 ≠ 4 := by omega
    have c5 : lo % 16 ≠ 5 := by omega
    have c6 : lo % 16 ≠ 6 := by omega
    have c7 : lo % 16 ≠ 7 := by omega
    have cE : lo % 16 ≠ 14 := by omega
    simp [c0, c1, c2, c3, c4, c5, c6, c7, cE]
  · -- d = 0xE
    simp [hundoc.1, hundoc.2]
  · -- d = 0xF
    simp [hundoc.1, hundoc.2.1, hundoc.2.2.1, hundoc.2.2.2.1, hundoc.2.2.2.2.1,
      hundoc.2.2.2.2.2.1, hundoc.2.2.2.2.2.2.1, hundoc.2.2.2.2.2.2.2.1,
      hundoc.2.2.2.2.2.2.2.2]

/-- C1 witness: the undocumented word 0x8008 (8XY8 is not a documented
pattern) is consumed as a pure pc+2 no-op. -/
theorem claim1_witness :
    step 0 (cexState 0x80 0x08 (fun _ => 0)) =
      some { cexState 0x80 0x08 (fun _ => 0) with pc := 0x200 + 2 } :=
  claim1_unknown_opcode_noop 0 (cexState 0x80 0x08 (fun _ => 0)) 0x80 0x08
    (by norm_num) (by norm_num) (by decide) (by decide) (by decide)
    (by norm_num) (by norm_num)

/-! ## The sprite-drawing characterization -/

theorem or_eq_zero_iff (a b : Nat) : a ||| b = 0 ↔ a = 0 ∧ b = 0 := by
  constructor
  · intro h
    have hb : ∀ i, a.testBit i = false ∧ b.testBit i = false := by
      intro i
      have h2 := congrArg (fun t => t.testBit i) h
      simpa [Nat.testBit_or] using h2
    exact ⟨Nat.eq_of_testBit_eq fun i => by simp [(hb i).1, Nat.zero_testBit],
           Nat.eq_of_testBit_eq fun i => by simp [(hb i).2, Nat.zero_testBit]⟩
  · rintro ⟨rfl, rfl⟩
    rfl

theorem or_ne_zero_left (a b : Nat) (h : a ≠ 0) : a ||| b ≠ 0 := by
  intro h0
  exact h ((or_eq_zero_iff a b).mp h0).1

theorem or_ne_zero_right (a b : Nat) (h : b ≠ 0) : a ||| b ≠ 0 := by
  intro h0
  exact h ((or_eq_zero_iff a b).mp h0).2

/-- The bit test `sprite_byte & mask` of the unrolled branch agrees with
the bit test `(sprite_byte >> (7 - col)) & 1` of the generic loop. -/
theorem shift_bit_ne (b k : Nat) : ((b >>> k) &&& 1 ≠ 0) ↔ (b &&& 2 ^ k ≠ 0) := by
  rw [Nat.and_one_is_mod, Nat.shiftRight_eq_div_pow, Nat.and_two_pow, Nat.testBit_to_div_mod]
  rcases Nat.mod_two_eq_zero_or_one (b / 2 ^ k) with h | h <;>
    simp [h, (Nat.two_pow_pos k).ne']

theorem bitStep_eq_colStep (b yc mask off : Nat) (hmask : mask = 2 ^ (7 - off))
    (acc : (Nat → Nat) × Nat) :
    bitStep b mask off yc acc = colStep b yc acc off := by
  unfold bitStep colStep
  rw [hmask]
  exact if_congr (shift_bit_ne b (7 - off)).symm rfl rfl

theorem unrolledRow_eq (b yc : Nat) (acc : (Nat → Nat) × Nat) :
    unrolledRow b yc acc = (List.range 8).foldl (colStep b yc) acc := by
  have hr : List.range 8 = [0, 1, 2, 3, 4, 5, 6, 7] := by decide
  rw [hr]
  simp only [List.foldl_cons, List.foldl_nil]
  rw [unrolledRow]
  rw [bitStep_eq_colStep b yc 0x01 7 (by norm_num)]
  rw [bitStep_eq_colStep b yc 0x02 6 (by norm_num)]
  rw [bitStep_eq_colStep b yc 0x04 5 (by norm_num)]
  rw [bitStep_eq_colStep b yc 0x08 4 (by norm_num)]
  rw [bitStep_eq_colStep b yc 0x10 3 (by norm_num)]
  rw [bitStep_eq_colStep b yc 0x20 2 (by norm_num)]
  rw [bitStep_eq_colStep b yc 0x40 1 (by norm_num)]
  rw [bitStep_eq_colStep b yc 0x80 0 (by norm_num)]

/-- The pure gfx/collision computation of `_draw_sprite_to_internal`, in the
generic-loop form (the `max_cols == 8` branch is the unrolling of the same
loop, `unrolledRow_eq`). -/
def drawLoop (mem gfx : Nat → Nat) (I x y max_rows max_cols : Nat) : (Nat → Nat) × Nat :=
  (List.range max_rows).foldl
    (fun acc row =>
      (List.range max_cols).foldl (colStep (mem (I + row)) ((y + row) * 64 + x)) acc)
    (gfx, 0)

theorem draw_sprite_eq_loop (s : C8State) (x y n I : Nat) :
    draw_sprite_to_internal s x y n I =
      { s with
        gfx := (drawLoop s.memory s.gfx I (x % 64) (y % 32)
          (min n (32 - y % 32)) (min 8 (64 - x % 64))).1,
        V := upd s.V 0xF
          (if (drawLoop s.memory s.gfx I (x % 64) (y % 32)
            (min n (32 - y % 32)) (min 8 (64 - x % 64))).2 ≠ 0 then 1 else 0),
        draw_flag := true } := by
  simp only [draw_sprite_to_internal, drawLoop]
  by_cases h8 : min 8 (64 - x % 64) = 8
  · simp only [h8, if_pos]
    simp only [unrolledRow_eq]
  · simp only [h8, if_neg, not_false_eq_true]

/-- Column-loop characterization: starting from accumulator `(g, c)`, the
fold over `col < mc` toggles exactly the set-bit columns of `b` (each cell at
most once), and ors into the collision the prior gfx values there. -/
theorem colFold_spec (b yc : Nat) : ∀ (mc : Nat) (g : Nat → Nat) (c : Nat),
    (∀ idx, (∃ col, col < mc ∧ idx = col + yc ∧ (b >>> (7 - col)) &&& 1 ≠ 0) →
      (((List.range mc).foldl (colStep b yc) (g, c)).1) idx = g idx ^^^ 1) ∧
    (∀ idx, (¬∃ col, col < mc ∧ idx = col + yc ∧ (b >>> (7 - col)) &&& 1 ≠ 0) →
      (((List.range mc).foldl (colStep b yc) (g, c)).1) idx = g idx) ∧
    ((((List.range mc).foldl (colStep b yc) (g, c)).2 ≠ 0) ↔
      (c ≠ 0 ∨ ∃ col, col < mc ∧ (b >>> (7 - col)) &&& 1 ≠ 0 ∧ g (col + yc) ≠ 0)) := by
  intro mc
  induction mc with
  | zero =>
    intro g c
    refine ⟨fun idx h => absurd h (by rintro ⟨col, hc, -, -⟩; omega), fun idx _ => rfl, ?_⟩
    constructor
    · exact fun h => Or.inl h
    · rintro (h | ⟨col, hc, -, -⟩)
      · exact h
      · exact absurd hc (by omega)
  | succ m ih =>
    intro g c
    rw [List.range_succ]
    simp only [List.foldl_append, List.foldl_cons, List.foldl_nil]
    obtain ⟨ih1, ih2, ih3⟩ := ih g c
    set r := (List.range m).foldl (colStep b yc) (g, c) with hrdef
    by_cases hbit : (b >>> (7 - m)) &&& 1 ≠ 0
    · have hstep : colStep b yc r m =
          (upd r.1 (m + yc) (r.1 (m + yc) ^^^ 1), r.2 ||| r.1 (m + yc)) := by
        unfold colStep
        rw [if_pos hbit]
      rw [hstep]
      refine ⟨?_, ?_, ?_⟩
      · rintro idx ⟨col, hc, he, hb⟩
        by_cases hcm : col = m
        · subst hcm
          subst he
          show upd r.1 (col + yc) (r.1 (col + yc) ^^^ 1) (col + yc) = g (col + yc) ^^^ 1
          rw [upd_same]
          have hnone : ¬∃ col', col' < col ∧ col + yc = col' + yc ∧
              (b >>> (7 - col')) &&& 1 ≠ 0 := by
            rintro ⟨col', hc', he', -⟩
            omega
          rw [ih2 (col + yc) hnone]
        · have hne : idx ≠ m + yc := by omega
          show upd r.1 (m + yc) (r.1 (m + yc) ^^^ 1) idx = g idx ^^^ 1
          rw [upd_other _ _ _ _ hne]
          exact ih1 idx ⟨col, by omega, he, hb⟩
      · intro idx hnot
        have hne : idx ≠ m + yc := fun he => hnot ⟨m, by omega, he, hbit⟩
        show upd r.1 (m + yc) (r.1 (m + yc) ^^^ 1) idx = g idx
        rw [upd_other _ _ _ _ hne]
        exact ih2 idx (fun ⟨col, hc, he, hb⟩ => hnot ⟨col, by omega, he, hb⟩)
      · show r.2 ||| r.1 (m + yc) ≠ 0 ↔ _
        have hnone : ¬∃ col', col' < m ∧ m + yc = col' + yc ∧
            (b >>> (7 - col')) &&& 1 ≠ 0 := by
          rintro ⟨col', hc', he', -⟩
          omega
        have hval : r.1 (m + yc) = g (m + yc) := ih2 (m + yc) hnone
        constructor
        · intro h
          by_cases hr2 : r.2 ≠ 0
          · rcases ih3.mp hr2 with h' | ⟨col, hc2, hb2, hg2⟩
            · exact Or.inl h'
            · exact Or.inr ⟨col, by omega, hb2, hg2⟩
          · have hr0 : r.2 = 0 := by omega
            rw [hr0, Nat.zero_or, hval] at h
            exact Or.inr ⟨m, by omega, hbit, h⟩
        · rintro (h | ⟨col, hc2, hb2, hg2⟩)
          · exact or_ne_zero_left _ _ (ih3.mpr (Or.inl h))
          · rcases Nat.lt_succ_iff_lt_or_eq.mp hc2 with h' | h'
            · exact or_ne_zero_left _ _ (ih3.mpr (Or.inr ⟨col, h', hb2, hg2⟩))
            · subst h'
              rw [hval]
              exact or_ne_zero_right _ _ hg2
    · have hstep : colStep b yc r m = r := by
        unfold colStep
        rw [if_neg hbit]
      rw [hstep]
      refine ⟨?_, ?_, ?_⟩
      · rintro idx ⟨col, hc, he, hb⟩
        have hcm : col ≠ m := fun h => hbit (h ▸ hb)
        exact ih1 idx ⟨col, by omega, he, hb⟩
      · intro idx hnot
        exact ih2 idx (fun ⟨col, hc, he, hb⟩ => hnot ⟨col, by omega, he, hb⟩)
      · rw [ih3]
        constructor
        · rintro (h | ⟨col, hc2, hb2, hg2⟩)
          · exact Or.inl h
          · exact Or.inr ⟨col, by omega, hb2, hg2⟩
        · rintro (h | ⟨col, hc2, hb2, hg2⟩)
          · exact Or.inl h
          · have hcm : col ≠ m := fun h' => hbit (h' ▸ hb2)
            exact Or.inr ⟨col, by omega, hb2, hg2⟩

/-- Row-loop characterization of `drawLoop`: under the clipping bound
`mc + x ≤ 64` distinct (row, col) pairs hit distinct gfx cells, so the whole
double loop toggles exactly the set sprite bits and ors the prior gfx values
at toggled cells into the collision. -/
theorem rowFold_spec (mem : Nat → Nat) (I x y mc : Nat) (hxc : mc + x ≤ 64) :
    ∀ (mr : Nat) (g : Nat → Nat),
    (∀ idx, (∃ row col, row < mr ∧ col < mc ∧ idx = col + ((y + row) * 64 + x) ∧
        (mem (I + row) >>> (7 - col)) &&& 1 ≠ 0) →
      (drawLoop mem g I x y mr mc).1 idx = g idx ^^^ 1) ∧
    (∀ idx, (¬∃ row col, row < mr ∧ col < mc ∧ idx = col + ((y + row) * 64 + x) ∧
        (mem (I + row) >>> (7 - col)) &&& 1 ≠ 0) →
      (drawLoop mem g I x y mr mc).1 idx = g idx) ∧
    ((drawLoop mem g I x y mr mc).2 ≠ 0 ↔
      ∃ row col, row < mr ∧ col < mc ∧ (mem (I + row) >>> (7 - col)) &&& 1 ≠ 0 ∧
        g (col + ((y + row) * 64 + x)) ≠ 0) := by
  intro mr
  induction mr with
  | zero =>
    intro g
    refine ⟨fun idx h => absurd h (by rintro ⟨row, col, hr, -, -, -⟩; omega),
            fun idx _ => rfl, ?_⟩
    constructor
    · intro h
      exact absurd rfl h
    · rintro ⟨row, col, hr, -, -, -⟩
      exact absurd hr (by omega)
  | succ m ih =>
    intro g
    obtain ⟨ih1, ih2, ih3⟩ := ih g
    unfold drawLoop at ih1 ih2 ih3 ⊢
    rw [List.range_succ]
    simp only [List.foldl_append, List.foldl_cons, List.foldl_nil]
    set r := (List.range m).foldl
      (fun acc row =>
        (List.range mc).foldl (colStep (mem (I + row)) ((y + row) * 64 + x)) acc)
      (g, 0) with hrdef
    obtain ⟨c1, c2, c3⟩ := colFold_spec (mem (I + m)) ((y + m) * 64 + x) mc r.1 r.2
    rw [Prod.mk.eta] at c1 c2 c3
    refine ⟨?_, ?_, ?_⟩
    · rintro idx ⟨row, col, hr, hc, he, hb⟩
      rcases Nat.lt_succ_iff_lt_or_eq.mp hr with hrow | hrow
      · have hnot : ¬∃ col', col' < mc ∧ idx = col' + ((y + m) * 64 + x) ∧
            (mem (I + m) >>> (7 - col')) &&& 1 ≠ 0 := by
          rintro ⟨col', hc', he', -⟩
          omega
        rw [c2 idx hnot]
        exact ih1 idx ⟨row, col, hrow, hc, he, hb⟩
      · subst hrow
        rw [c1 idx ⟨col, hc, he, hb⟩]
        have hnot : ¬∃ row' col', row' < row ∧ col' < mc ∧
            idx = col' + ((y + row') * 64 + x) ∧
            (mem (I + row') >>> (7 - col')) &&& 1 ≠ 0 := by
          rintro ⟨row', col', hr', hc', he', -⟩
          omega
        rw [ih2 idx hnot]
    · intro idx hnot
      have hn1 : ¬∃ col', col' < mc ∧ idx = col' + ((y + m) * 64 + x) ∧
          (mem (I + m) >>> (7 - col')) &&& 1 ≠ 0 :=
        fun ⟨col', hc', he', hb'⟩ => hnot ⟨m, col', by omega, hc', he', hb'⟩
      rw [c2 idx hn1]
      exact ih2 idx (fun ⟨row, col, hr, hc, he, hb⟩ => hnot ⟨row, col, by omega, hc, he, hb⟩)
    · rw [c3]
      constructor
      · rintro (h | ⟨col, hc, hb, hg⟩)
        · obtain ⟨row, col, hr, hc, hb, hg⟩ := ih3.mp h
          exact ⟨row, col, by omega, hc, hb, hg⟩
        · have hval : r.1 (col + ((y + m) * 64 + x)) = g (col + ((y + m) * 64 + x)) := by
            apply ih2
            rintro ⟨row', col', hr', hc', he', -⟩
            omega
          rw [hval] at hg
          exact ⟨m, col, by omega, hc, hb, hg⟩
      · rintro ⟨row, col, hr, hc, hb, hg⟩
        rcases Nat.lt_succ_iff_lt_or_eq.mp hr with hrow | hrow
        · exact Or.inl (ih3.mpr ⟨row, col, hrow, hc, hb, hg⟩)
        · subst hrow
          right
          refine ⟨col, hc, hb, ?_⟩
          have hval : r.1 (col + ((y + row) * 64 + x)) = g (col + ((y + row) * 64 + x)) := by
            apply ih2
            rintro ⟨row', col', hr', hc', he', -⟩
            omega
          rw [hval]
          exact hg

/-- The gfx cells toggled by a draw with wrapped origin (x, y), `mr` rows and
`mc` columns: cell `idx` is toggled exactly when a set sprite bit maps to it. -/
def spriteToggles (mem : Nat → Nat) (I x y mr mc idx : Nat) : Prop :=
  ∃ row col, row < mr ∧ col < mc ∧ idx = col + ((y + row) * 64 + x) ∧
    (mem (I + row) >>> (7 - col)) &&& 1 ≠ 0

/-- Some toggled cell holds a nonzero (ON) pixel in `gfx`: the collision
condition of a draw. -/
def spriteHits (mem gfx : Nat → Nat) (I x y mr mc : Nat) : Prop :=
  ∃ row col, row < mr ∧ col < mc ∧ (mem (I + row) >>> (7 - col)) &&& 1 ≠ 0 ∧
    gfx (col + ((y + row) * 64 + x)) ≠ 0

/-- Full characterization of `_draw_sprite_to_internal`. -/
theorem draw_spec (s : C8State) (x y n I : Nat) :
    (∀ idx, spriteToggles s.memory I (x % 64) (y % 32)
        (min n (32 - y % 32)) (min 8 (64 - x % 64)) idx →
      (draw_sprite_to_internal s x y n I).gfx idx = s.gfx idx ^^^ 1) ∧
    (∀ idx, ¬spriteToggles s.memory I (x % 64) (y % 32)
        (min n (32 - y % 32)) (min 8 (64 - x % 64)) idx →
      (draw_sprite_to_internal s x y n I).gfx idx = s.gfx idx) ∧
    ((draw_sprite_to_internal s x y n I).V 0xF = 1 ↔
      spriteHits s.memory s.gfx I (x % 64) (y % 32)
        (min n (32 - y % 32)) (min 8 (64 - x % 64))) ∧
    ((draw_sprite_to_internal s x y n I).V 0xF = 0 ↔
      ¬spriteHits s.memory s.gfx I (x % 64) (y % 32)
        (min n (32 - y % 32)) (min 8 (64 - x % 64))) ∧
    (∀ i, i ≠ 0xF → (draw_sprite_to_internal s x y n I).V i = s.V i) ∧
    (draw_sprite_to_internal s x y n I).draw_flag = true ∧
    (draw_sprite_to_internal s x y n I).memory = s.memory ∧
    (draw_sprite_to_internal s x y n I).pc = s.pc ∧
    (draw_sprite_to_internal s x y n I).I = s.I ∧
    (draw_sprite_to_internal s x y n I).stack = s.stack ∧
    (draw_sprite_to_internal s x y n I).delay_timer = s.delay_timer ∧
    (draw_sprite_to_internal s x y n I).sound_timer = s.sound_timer ∧
    (draw_sprite_to_internal s x y n I).keys = s.keys ∧
    (draw_sprite_to_internal s x y n I).prev_keys = s.prev_keys := by
  have hxc : min 8 (64 - x % 64) + x % 64 ≤ 64 := by
    have : x % 64 < 64 := Nat.mod_lt _ (by norm_num)
    omega
  obtain ⟨r1, r2, r3⟩ := rowFold_spec s.memory I (x % 64) (y % 32)
    (min 8 (64 - x % 64)) hxc (min n (32 - y % 32)) s.gfx
  rw [draw_sprite_eq_loop]
  refine ⟨fun idx h => r1 idx h, fun idx h => r2 idx h, ?_, ?_, ?_, rfl, rfl, rfl, rfl, rfl,
    rfl, rfl, rfl, rfl⟩
  · show upd s.V 0xF (if _ ≠ 0 then 1 else 0) 0xF = 1 ↔ _
    rw [upd_same]
    by_cases h : (drawLoop s.memory s.gfx I (x % 64) (y % 32)
        (min n (32 - y % 32)) (min 8 (64 - x % 64))).2 ≠ 0
    · rw [if_pos h]
      simp only [true_iff]
      exact r3.mp h
    · rw [if_neg h]
      simp only [(by norm_num : (0 : Nat) ≠ 1), false_iff]
      intro hc
      exact h (r3.mpr hc)
  · show upd s.V 0xF (if _ ≠ 0 then 1 else 0) 0xF = 0 ↔ _
    rw [upd_same]
    by_cases h : (drawLoop s.memory s.gfx I (x % 64) (y % 32)
        (min n (32 - y % 32)) (min 8 (64 - x % 64))).2 ≠ 0
    · rw [if_pos h]
      simp only [(by norm_num : (1 : Nat) ≠ 0), false_iff, not_not]
      exact r3.mp h
    · rw [if_neg h]
      simp only [true_iff]
      intro hc
      exact h (r3.mpr hc)
  · intro i hi
    show upd s.V 0xF _ i = s.V i
    rw [upd_other _ _ _ _ hi]

/-! ## Claim C5 -/

/-- C5: the draw origin is wrapped modulo 64 and 32, and out-of-range sprite
columns are silently clipped: a draw whose wrapped origin column is 60 can
only mutate cells in columns 60-63 — every cell in a column below 60 (in
particular column 0: no wraparound) is untouched. -/
theorem claim5_draw_clipping (s : C8State) (x y n I : Nat) :
    (draw_sprite_to_internal s x y n I = draw_sprite_to_internal s (x % 64) (y % 32) n I) ∧
    (x % 64 = 60 → ∀ idx, idx % 64 < 60 →
      (draw_sprite_to_internal s x y n I).gfx idx = s.gfx idx) := by
  constructor
  · have e1 : x % 64 % 64 = x % 64 := by omega
    have e2 : y % 32 % 32 = y % 32 := by omega
    simp only [draw_sprite_to_internal, e1, e2]
  · intro h60 idx hidx
    apply (draw_spec s x y n I).2.1 idx
    rintro ⟨row, col, hr, hc, he, -⟩
    rw [h60] at hc he
    norm_num at hc
    omega

/-- C5 witness: origin x = 124 wraps to column 60; with an all-set sprite
byte, the cell in column 0 is untouched. -/
theorem claim5_witness :
    (draw_sprite_to_internal (cexState 0 0xFF (fun _ => 0)) 124 0 1 0x201 =
      draw_sprite_to_internal (cexState 0 0xFF (fun _ => 0)) (124 % 64) (0 % 32) 1 0x201) ∧
    (draw_sprite_to_internal (cexState 0 0xFF (fun _ => 0)) 124 0 1 0x201).gfx 0 =
      (cexState 0 0xFF (fun _ => 0)).gfx 0 := by
  have h := claim5_draw_clipping (cexState 0 0xFF (fun _ => 0)) 124 0 1 0x201
  exact ⟨h.1, h.2 (by norm_num) 0 (by norm_num)⟩

/-! ## Claim C6 -/

theorem step_DXYN (rnd : Nat) (s : C8State) (xr lo : Nat) (hxr : xr < 16) (hlo : lo < 256)
    (h0 : s.memory s.pc = 0xD0 + xr) (h1 : s.memory (s.pc + 1) = lo) :
    step rnd s = some { draw_sprite_to_internal s (s.V xr) (s.V (lo / 16)) (lo % 16) s.I with
      pc := s.pc + 2 } := by
  simp only [step]
  rw [h0, h1, shiftLeft8_or _ _ hlo, and_F000, and_0F00_shift, and_00F0_shift, and_000F]
  rw [show ((0xD0 + xr) * 256 + lo) / 4096 % 16 * 4096 = 0xD000 by omega]
  rw [show ((0xD0 + xr) * 256 + lo) / 256 % 16 = xr by omega]
  rw [show ((0xD0 + xr) * 256 + lo) / 16 % 16 = lo / 16 by omega]
  rw [show ((0xD0 + xr) * 256 + lo) % 16 = lo % 16 by omega]
  norm_num

/-- C6: after a DXYN step, VF = 1 exactly when some pixel toggled by this
draw was previously ON (nonzero, the source's truthiness notion of ON), VF =
0 otherwise, and the dirty flag is set unconditionally — also for height 0
or a sprite clipped to nothing. -/
theorem claim6_draw_collision_flag (rnd : Nat) (s : C8State) (xr lo : Nat)
    (hxr : xr < 16) (hlo : lo < 256)
    (h0 : s.memory s.pc = 0xD0 + xr) (h1 : s.memory (s.pc + 1) = lo) :
    ∃ t, step rnd s = some t ∧
      (t.V 0xF = 1 ↔ spriteHits s.memory s.gfx s.I (s.V xr % 64) (s.V (lo / 16) % 32)
        (min (lo % 16) (32 - s.V (lo / 16) % 32)) (min 8 (64 - s.V xr % 64))) ∧
      (t.V 0xF = 0 ↔ ¬spriteHits s.memory s.gfx s.I (s.V xr % 64) (s.V (lo / 16) % 32)
        (min (lo % 16) (32 - s.V (lo / 16) % 32)) (min 8 (64 - s.V xr % 64))) ∧
      t.draw_flag = true := by
  refine ⟨_, step_DXYN rnd s xr lo hxr hlo h0 h1, ?_, ?_, ?_⟩
  · exact (draw_spec s (s.V xr) (s.V (lo / 16)) (lo % 16) s.I).2.2.1
  · exact (draw_spec s (s.V xr) (s.V (lo / 16)) (lo % 16) s.I).2.2.2.1
  · exact (draw_spec s (s.V xr) (s.V (lo / 16)) (lo % 16) s.I).2.2.2.2.2.1

/-- C6 witness: D001 drawing byte 0x80 at (0, 0) over a display whose pixel
0 is ON yields VF = 1 and sets the dirty flag. -/
theorem claim6_witness :
    ∃ t, step 0 { cexState 0xD0 0x01 (fun _ => 0) with
        memory := fun a => if a = 0x200 then 0xD0 else if a = 0x201 then 0x01
          else if a = 0x300 then 0x80 else 0,
        gfx := fun i => if i = 0 then 1 else 0,
        I := 0x300 } = some t ∧ t.V 0xF = 1 ∧ t.draw_flag = true := by
  obtain ⟨t, ht, h1, -, hf⟩ := claim6_draw_collision_flag 0
    { cexState 0xD0 0x01 (fun _ => 0) with
      memory := fun a => if a = 0x200 then 0xD0 else if a = 0x201 then 0x01
        else if a = 0x300 then 0x80 else 0,
      gfx := fun i => if i = 0 then 1 else 0,
      I := 0x300 } 0 0x01 (by norm_num) (by norm_num) (by decide) (by decide)
  exact ⟨t, ht, h1.mpr ⟨0, 0, by decide, by decide, by decide, by decide⟩, hf⟩

/-! ## Claim C8 -/

/-- C8: drawing the identical sprite at the identical origin twice in
succession restores every pixel to its value before the first draw, and the
second draw's VF is 1 exactly when the second draw turned at least one pixel
off (a pixel nonzero after the first draw and zero after the second). -/
theorem claim8_draw_involution (s : C8State) (x y n I : Nat) (hg : ∀ i, s.gfx i ≤ 1) :
    (∀ idx, (draw_sprite_to_internal (draw_sprite_to_internal s x y n I) x y n I).gfx idx =
      s.gfx idx) ∧
    ((draw_sprite_to_internal (draw_sprite_to_internal s x y n I) x y n I).V 0xF = 1 ↔
      ∃ idx, (draw_sprite_to_internal s x y n I).gfx idx ≠ 0 ∧
        (draw_sprite_to_internal (draw_sprite_to_internal s x y n I) x y n I).gfx idx = 0) := by
  obtain ⟨a1, a2, a3, a4, a5, a6, a7, a8, a9, a10, a11, a12, a13, a14⟩ := draw_spec s x y n I
  obtain ⟨b1, b2, b3, b4, b5, b6, b7, b8, b9, b10, b11, b12, b13, b14⟩ :=
    draw_spec (draw_sprite_to_internal s x y n I) x y n I
  rw [a7] at b1 b2 b3
  constructor
  · intro idx
    by_cases hT : spriteToggles s.memory I (x % 64) (y % 32)
      (min n (32 - y % 32)) (min 8 (64 - x % 64)) idx
    · rw [b1 idx hT, a1 idx hT, Nat.xor_assoc]
      simp
    · rw [b2 idx hT, a2 idx hT]
  · constructor
    · intro h
      obtain ⟨row, col, hr, hc, hb, hgfx⟩ := b3.mp h
      have hTp : spriteToggles s.memory I (x % 64) (y % 32)
          (min n (32 - y % 32)) (min 8 (64 - x % 64))
          (col + ((y % 32 + row) * 64 + x % 64)) := ⟨row, col, hr, hc, rfl, hb⟩
      refine ⟨col + ((y % 32 + row) * 64 + x % 64), hgfx, ?_⟩
      rw [b1 _ hTp]
      have h1v := a1 _ hTp
      have hsp := hg (col + ((y % 32 + row) * 64 + x % 64))
      have h01 : (draw_sprite_to_internal s x y n I).gfx
          (col + ((y % 32 + row) * 64 + x % 64)) = 1 := by
        rcases (by omega :
            s.gfx (col + ((y % 32 + row) * 64 + x % 64)) = 0 ∨
            s.gfx (col + ((y % 32 + row) * 64 + x % 64)) = 1) with h' | h'
        · rw [h1v, h']
          decide
        · exact absurd (by rw [h1v, h']; decide) hgfx
      rw [h01]
      decide
    · rintro ⟨idx, hne, hzero⟩
      by_cases hT : spriteToggles s.memory I (x % 64) (y % 32)
        (min n (32 - y % 32)) (min 8 (64 - x % 64)) idx
      · obtain ⟨row, col, hr, hc, he, hb⟩ := hT
        exact b3.mpr ⟨row, col, hr, hc, hb, he ▸ hne⟩
      · rw [b2 idx hT] at hzero
        exact absurd hzero hne

/-- C8 witness: drawing byte 0xFF at (0, 0) twice over a display with pixel
0 ON restores pixels 0 and 3 to their original values. -/
theorem claim8_witness :
    (draw_sprite_to_internal (draw_sprite_to_internal
        { cexState 0 0 (fun _ => 0) with
          memory := fun a => if a = 0 then 0xFF else 0,
          gfx := fun i => if i = 0 then 1 else 0 } 0 0 1 0) 0 0 1 0).gfx 0 =
      (1 : Nat) ∧
    (draw_sprite_to_internal (draw_sprite_to_internal
        { cexState 0 0 (fun _ => 0) with
          memory := fun a => if a = 0 then 0xFF else 0,
          gfx := fun i => if i = 0 then 1 else 0 } 0 0 1 0) 0 0 1 0).gfx 3 =
      (0 : Nat) := by
  have h := claim8_draw_involution
    { cexState 0 0 (fun _ => 0) with
      memory := fun a => if a = 0 then 0xFF else 0,
      gfx := fun i => if i = 0 then 1 else 0 } 0 0 1 0
    (fun i => by by_cases hi : i = 0 <;> simp [cexState, hi])
  constructor
  · rw [h.1 0]
    decide
  · rw [h.1 3]
    decide

/-! ## Claim C10: the byte invariant -/

theorem getD_le (l : List Nat) (hB : ∀ b ∈ l, b ≤ 255) (k : Nat) : l.getD k 0 ≤ 255 := by
  rw [List.getD_eq_getElem?_getD]
  cases hx : l[k]? with
  | none => simp
  | some v => simpa using hB v (List.getElem?_mem hx)

theorem fontset_le : ∀ b ∈ fontset, b ≤ 255 := by decide

theorem upd_le (f : Nat → Nat) (hf : ∀ i, f i ≤ 255) (i v : Nat) (hv : v ≤ 255) :
    ∀ j, upd f i v j ≤ 255 := by
  intro j
  unfold upd
  split
  · exact hv
  · exact hf j

theorem le_and255 (v : Nat) : v &&& 255 ≤ 255 := by
  rw [and_00FF]
  omega

theorem ite_le_one (c : Prop) [Decidable c] : (if c then 1 else 0 : Nat) ≤ 255 := by
  split <;> omega

theorem int_sub_mod_le (a b : Nat) : (((a : Int) - (b : Int)) % 256).toNat ≤ 255 := by
  have h1 := Int.emod_nonneg ((a : Int) - (b : Int)) (by norm_num : (256 : Int) ≠ 0)
  have h2 := Int.emod_lt_of_pos ((a : Int) - (b : Int)) (by norm_num : (0 : Int) < 256)
  omega

theorem or_le_255 (a b : Nat) (ha : a ≤ 255) (hb : b ≤ 255) : a ||| b ≤ 255 := by
  have h := Nat.or_lt_two_pow (x := a) (y := b) (n := 8) (by norm_num; omega) (by norm_num; omega)
  norm_num at h
  omega

theorem xor_le_255 (a b : Nat) (ha : a ≤ 255) (hb : b ≤ 255) : a ^^^ b ≤ 255 := by
  have h := Nat.xor_lt_two_pow (x := a) (y := b) (n := 8) (by norm_num; omega) (by norm_num; omega)
  norm_num at h
  omega

theorem flagE_le (v : Nat) : (v &&& 0x80) >>> 7 ≤ 255 := by
  have h : v &&& 0x80 ≤ 128 := Nat.and_le_right
  rw [Nat.shiftRight_eq_div_pow]
  have h2 : (v &&& 0x80) / 2 ^ 7 ≤ v &&& 0x80 := Nat.div_le_self _ _
  omega

theorem findReleaseFrom_lt (prev keys : Nat → Nat) :
    ∀ fuel k i, 16 - k ≤ fuel → findReleaseFrom prev keys k = some i → i < 16 := by
  intro fuel
  induction fuel with
  | zero =>
    intro k i hk h
    rw [findReleaseFrom] at h
    have hlt : ¬k < 16 := by omega
    simp [hlt] at h
  | succ n ih =>
    intro k i hk h
    rw [findReleaseFrom] at h
    by_cases hlt : k < 16
    · simp only [hlt, dif_pos] at h
      by_cases hc : prev k = 1 ∧ keys k = 0
      · rw [if_pos hc] at h
        injection h with h2
        omega
      · rw [if_neg hc] at h
        exact ih (k + 1) i (by omega) h
    · simp [hlt] at h

/-- Initialization establishes the byte invariant. -/
theorem init_Inv (rom : List Nat) (s : C8State) (hrom : ∀ b ∈ rom, b ≤ 255)
    (h : initInterpreter rom = some s) : Inv s := by
  unfold initInterpreter load_rom at h
  by_cases hlen : rom.length > 4096 - 0x200
  · simp [hlen] at h
  · rw [if_neg hlen] at h
    simp only [Option.some.injEq] at h
    subst h
    refine ⟨fun i => ?_, fun a => ?_, ?_, ?_⟩
    · show (0 : Nat) ≤ 255
      omega
    · show load_fontset (fun a => if 0x200 ≤ a ∧ a < 0x200 + rom.length
        then rom.getD (a - 0x200) 0 else 0) a ≤ 255
      unfold load_fontset
      split
      · exact getD_le fontset fontset_le _
      · show (if 0x200 ≤ a ∧ a < 0x200 + rom.length then rom.getD (a - 0x200) 0 else
          (0 : Nat)) ≤ 255
        split
        · exact getD_le rom hrom _
        · omega
    · show (0 : Nat) ≤ 255
      omega
    · show (0 : Nat) ≤ 255
      omega

/-- One step preserves the byte invariant. -/
theorem step_Inv (rnd : Nat) (s t : C8State) (hInv : Inv s) (hstep : step rnd s = some t) :
    Inv t := by
  obtain ⟨hV, hM, hD, hS⟩ := hInv
  simp only [step] at hstep
  have hB0 : s.memory s.pc ≤ 255 := hM s.pc
  have hB1 : s.memory (s.pc + 1) ≤ 255 := hM (s.pc + 1)
  obtain ⟨b0, hb0⟩ : ∃ b0, s.memory s.pc = b0 := ⟨_, rfl⟩
  obtain ⟨b1, hb1⟩ : ∃ b1, s.memory (s.pc + 1) = b1 := ⟨_, rfl⟩
  rw [hb0] at hB0
  rw [hb1] at hB1
  rw [hb0, hb1] at hstep
  rw [shiftLeft8_or _ _ (by omega)] at hstep
  rw [and_F000, and_0F00_shift, and_00F0_shift, and_00FF, and_000F, and_0FFF] at hstep
  rw [show (b0 * 256 + b1) / 4096 % 16 = b0 / 16 by omega] at hstep
  rw [show (b0 * 256 + b1) / 256 % 16 = b0 % 16 by omega] at hstep
  rw [show (b0 * 256 + b1) / 16 % 16 = b1 / 16 by omega] at hstep
  rw [show (b0 * 256 + b1) % 256 = b1 by omega] at hstep
  rw [show (b0 * 256 + b1) % 16 = b1 % 16 by omega] at hstep
  rw [show (b0 * 256 + b1) % 4096 = b0 % 16 * 256 + b1 by omega] at hstep
  obtain ⟨d, hd⟩ : ∃ d, b0 / 16 = d := ⟨_, rfl⟩
  rw [hd] at hstep
  have hdlt : d < 16 := by omega
  interval_cases d <;> norm_num at hstep
  · -- d = 0: 00E0 / 00EE / unknown
    by_cases hE0 : b0 * 256 + b1 = 224
    · rw [if_pos hE0] at hstep
      first
      | subst hstep
      | (rw [Option.some.injEq] at hstep; subst hstep)
      exact ⟨hV, hM, hD, hS⟩
    · rw [if_neg hE0] at hstep
      by_cases hEE : b0 * 256 + b1 = 238
      · rw [if_pos hEE] at hstep
        rcases hstk : s.stack with _ | ⟨p, rest⟩ <;> rw [hstk] at hstep
        · simp at hstep
        · simp only [Option.some.injEq] at hstep
          subst hstep
          exact ⟨hV, hM, hD, hS⟩
      · rw [if_neg hEE] at hstep
        first
        | subst hstep
        | (rw [Option.some.injEq] at hstep; subst hstep)
        exact ⟨hV, hM, hD, hS⟩
  · -- d = 1: jump
    first
    | subst hstep
    | (rw [Option.some.injEq] at hstep; subst hstep)
    exact ⟨hV, hM, hD, hS⟩
  · -- d = 2: call
    first
    | subst hstep
    | (rw [Option.some.injEq] at hstep; subst hstep)
    exact ⟨hV, hM, hD, hS⟩
  · -- d = 3: skip if equal
    first
    | subst hstep
    | (rw [Option.some.injEq] at hstep; subst hstep)
    exact ⟨hV, hM, hD, hS⟩
  · -- d = 4: skip if not equal
    first
    | subst hstep
    | (rw [Option.some.injEq] at hstep; subst hstep)
    exact ⟨hV, hM, hD, hS⟩
  · -- d = 5: skip if registers equal
    first
    | subst hstep
    | (rw [Option.some.injEq] at hstep; subst hstep)
    exact ⟨hV, hM, hD, hS⟩
  · -- d = 6: set register
    first
    | subst hstep
    | (rw [Option.some.injEq] at hstep; subst hstep)
    exact ⟨upd_le _ hV _ _ (by omega), hM, hD, hS⟩
  · -- d = 7: add immediate
    first
    | subst hstep
    | (rw [Option.some.injEq] at hstep; subst hstep)
    exact ⟨upd_le _ hV _ _ (le_and255 _), hM, hD, hS⟩
  · -- d = 8: arithmetic family
    obtain ⟨e, he⟩ : ∃ e, b1 % 16 = e := ⟨_, rfl⟩
    rw [he] at hstep
    have helt : e < 16 := by omega
    interval_cases e <;> norm_num at hstep
    · first
      | subst hstep
      | (rw [Option.some.injEq] at hstep; subst hstep)
      exact ⟨upd_le _ hV _ _ (hV _), hM, hD, hS⟩
    · first
      | subst hstep
      | (rw [Option.some.injEq] at hstep; subst hstep)
      exact ⟨upd_le _ (upd_le _ hV _ _ (or_le_255 _ _ (hV _) (hV _))) _ _ (by omega), hM, hD, hS⟩
    · first
      | subst hstep
      | (rw [Option.some.injEq] at hstep; subst hstep)
      exact ⟨upd_le _ (upd_le _ hV _ _ (le_trans Nat.and_le_left (hV _))) _ _ (by omega),
        hM, hD, hS⟩
    · first
      | subst hstep
      | (rw [Option.some.injEq] at hstep; subst hstep)
      exact ⟨upd_le _ (upd_le _ hV _ _ (xor_le_255 _ _ (hV _) (hV _))) _ _ (by omega),
        hM, hD, hS⟩
    · first
      | subst hstep
      | (rw [Option.some.injEq] at hstep; subst hstep)
      exact ⟨upd_le _ (upd_le _ hV _ _ (le_and255 _)) _ _ (ite_le_one _), hM, hD, hS⟩
    · first
      | subst hstep
      | (rw [Option.some.injEq] at hstep; subst hstep)
      exact ⟨upd_le _ (upd_le _ hV _ _ (int_sub_mod_le _ _)) _ _ (ite_le_one _), hM, hD, hS⟩
    · first
      | subst hstep
      | (rw [Option.some.injEq] at hstep; subst hstep)
      exact ⟨upd_le _ (upd_le _ (upd_le _ hV _ _ (hV _)) _ _ (le_and255 _)) _ _
        (by omega), hM, hD, hS⟩
    · first
      | subst hstep
      | (rw [Option.some.injEq] at hstep; subst hstep)
      exact ⟨upd_le _ (upd_le _ hV _ _ (int_sub_mod_le _ _)) _ _ (ite_le_one _), hM, hD, hS⟩
    · first
      | subst hstep
      | (rw [Option.some.injEq] at hstep; subst hstep)
      exact ⟨hV, hM, hD, hS⟩
    · first
      | subst hstep
      | (rw [Option.some.injEq] at hstep; subst hstep)
      exact ⟨hV, hM, hD, hS⟩
    · first
      | subst hstep
      | (rw [Option.some.injEq] at hstep; subst hstep)
      exact ⟨hV, hM, hD, hS⟩
    · first
      | subst hstep
      | (rw [Option.some.injEq] at hstep; subst hstep)
      exact ⟨hV, hM, hD, hS⟩
    · first
      | subst hstep
      | (rw [Option.some.injEq] at hstep; subst hstep)
      exact ⟨hV, hM, hD, hS⟩
    · first
      | subst hstep
      | (rw [Option.some.injEq] at hstep; subst hstep)
      exact ⟨hV, hM, hD, hS⟩
    · first
      | subst hstep
      | (rw [Option.some.injEq] at hstep; subst hstep)
      exact ⟨upd_le _ (upd_le _ (upd_le _ hV _ _ (hV _)) _ _ (le_and255 _)) _ _
        (flagE_le _), hM, hD, hS⟩
    · first
      | subst hstep
      | (rw [Option.some.injEq] at hstep; subst hstep)
      exact ⟨hV, hM, hD, hS⟩
  · -- d = 9: skip if registers not equal
    first
    | subst hstep
    | (rw [Option.some.injEq] at hstep; subst hstep)
    exact ⟨hV, hM, hD, hS⟩
  · -- d = A: set index
    first
    | subst hstep
    | (rw [Option.some.injEq] at hstep; subst hstep)
    exact ⟨hV, hM, hD, hS⟩
  · -- d = B: jump plus V0
    first
    | subst hstep
    | (rw [Option.some.injEq] at hstep; subst hstep)
    exact ⟨hV, hM, hD, hS⟩
  · -- d = C: random
    first
    | subst hstep
    | (rw [Option.some.injEq] at hstep; subst hstep)
    exact ⟨upd_le _ hV _ _ Nat.and_le_right, hM, hD, hS⟩
  · -- d = D: draw
    rw [draw_sprite_eq_loop] at hstep
    first
    | subst hstep
    | (rw [Option.some.injEq] at hstep; subst hstep)
    exact ⟨upd_le _ hV _ _ (ite_le_one _), hM, hD, hS⟩
  · -- d = E: key skips
    by_cases h9E : b1 = 158
    · rw [if_pos h9E] at hstep
      first
      | subst hstep
      | (rw [Option.some.injEq] at hstep; subst hstep)
      exact ⟨hV, hM, hD, hS⟩
    · rw [if_neg h9E] at hstep
      by_cases hA1 : b1 = 161
      · rw [if_pos hA1] at hstep
        first
        | subst hstep
        | (rw [Option.some.injEq] at hstep; subst hstep)
        exact ⟨hV, hM, hD, hS⟩
      · rw [if_neg hA1] at hstep
        first
        | subst hstep
        | (rw [Option.some.injEq] at hstep; subst hstep)
        exact ⟨hV, hM, hD, hS⟩
  · -- d = F: timer / memory family
    by_cases h07 : b1 = 7
    · rw [if_pos h07] at hstep
      first
      | subst hstep
      | (rw [Option.some.injEq] at hstep; subst hstep)
      exact ⟨upd_le _ hV _ _ hD, hM, hD, hS⟩
    · rw [if_neg h07] at hstep
      by_cases h0A : b1 = 10
      · rw [if_pos h0A] at hstep
        rcases hfr : findReleaseFrom s.prev_keys s.keys 0 with _ | i <;> rw [hfr] at hstep
        · simp only [Option.some.injEq] at hstep
          subst hstep
          exact ⟨hV, hM, hD, hS⟩
        · have hi : i < 16 := findReleaseFrom_lt s.prev_keys s.keys 16 0 i (by omega) hfr
          simp only [Option.some.injEq] at hstep
          subst hstep
          exact ⟨upd_le _ hV _ _ (by omega), hM, hD, hS⟩
      · rw [if_neg h0A] at hstep
        by_cases h15 : b1 = 21
        · rw [if_pos h15] at hstep
          first
          | subst hstep
          | (rw [Option.some.injEq] at hstep; subst hstep)
          exact ⟨hV, hM, hV _, hS⟩
        · rw [if_neg h15] at hstep
          by_cases h18 : b1 = 24
          · rw [if_pos h18] at hstep
            first
            | subst hstep
            | (rw [Option.some.injEq] at hstep; subst hstep)
            exact ⟨hV, hM, hD, hV _⟩
          · rw [if_neg h18] at hstep
            by_cases h1E : b1 = 30
            · rw [if_pos h1E] at hstep
              first
              | subst hstep
              | (rw [Option.some.injEq] at hstep; subst hstep)
              exact ⟨hV, hM, hD, hS⟩
            · rw [if_neg h1E] at hstep
              by_cases h29 : b1 = 41
              · rw [if_pos h29] at hstep
                first
                | subst hstep
                | (rw [Option.some.injEq] at hstep; subst hstep)
                exact ⟨hV, hM, hD, hS⟩
              · rw [if_neg h29] at hstep
                by_cases h33 : b1 = 51
                · rw [if_pos h33] at hstep
                  first
                  | subst hstep
                  | (rw [Option.some.injEq] at hstep; subst hstep)
                  refine ⟨hV, ?_, hD, hS⟩
                  have hten : s.V (b0 % 16) / 10 % 10 < 10 := Nat.mod_lt _ (by norm_num)
                  have hone : s.V (b0 % 16) % 10 < 10 := Nat.mod_lt _ (by norm_num)
                  have hhun : s.V (b0 % 16) / 100 ≤ 255 :=
                    le_trans (Nat.div_le_self _ _) (hV _)
                  exact upd_le _ (upd_le _ (upd_le _ hM _ _ hhun) _ _ (by omega)) _ _ (by omega)
                · rw [if_neg h33] at hstep
                  by_cases h55 : b1 = 85
                  · rw [if_pos h55] at hstep
                    first
                    | subst hstep
                    | (rw [Option.some.injEq] at hstep; subst hstep)
                    refine ⟨hV, ?_, hD, hS⟩
                    intro a
                    show (if s.I ≤ a ∧ a < s.I + (b0 % 16 + 1) then s.V (a - s.I)
                      else s.memory a) ≤ 255
                    split
                    · exact hV _
                    · exact hM _
                  · rw [if_neg h55] at hstep
                    by_cases h65 : b1 = 101
                    · rw [if_pos h65] at hstep
                      first
                      | subst hstep
                      | (rw [Option.some.injEq] at hstep; subst hstep)
                      refine ⟨?_, hM, hD, hS⟩
                      intro i
                      show (if i < b0 % 16 + 1 then s.memory (s.I + i) else s.V i) ≤ 255
                      split
                      · exact hM _
                      · exact hV _
                    · rw [if_neg h65] at hstep
                      first
                      | subst hstep
                      | (rw [Option.some.injEq] at hstep; subst hstep)
                      exact ⟨hV, hM, hD, hS⟩

/-- C10: after initialization (from an image of bytes) and after every step
that completes without error, every register V0-VF and every memory cell
holds a value in [0, 255]; `Inv` is the inductive form of the invariant
(registers, memory and the two timers are bytes - the timers are needed in
the induction because FX07 copies the delay timer into a register). -/
theorem claim10_byte_invariant :
    (∀ rom s, (∀ b ∈ rom, b ≤ 255) → initInterpreter rom = some s → Inv s) ∧
    (∀ rnd s t, Inv s → step rnd s = some t → Inv t) ∧
    (∀ s, Inv s → (∀ i, s.V i ≤ 255) ∧ (∀ a, s.memory a ≤ 255)) :=
  ⟨fun rom s hrom h => init_Inv rom s hrom h,
   fun rnd s t hInv h => step_Inv rnd s t hInv h,
   fun _ hInv => ⟨hInv.1, hInv.2.1⟩⟩

/-- C10 witness: the all-zero one-byte ROM initializes to an invariant-
satisfying state, and one step of the 7XNN add from a concrete state keeps
register V0 at a byte value. -/
theorem claim10_witness :
    (∃ s, initInterpreter [0x60] = some s ∧ Inv s) ∧
    (∃ t, step 0 (cexState 0x70 0xFF (fun i => if i = 0 then 200 else 0)) = some t ∧
      Inv t ∧ t.V 0 = 199) := by
  constructor
  · refine ⟨_, rfl, (claim10_byte_invariant).1 [0x60] _ (by decide) rfl⟩
  · have hInv : Inv (cexState 0x70 0xFF (fun i => if i = 0 then 200 else 0)) := by
      refine ⟨fun i => by dsimp [cexState]; split <;> omega, fun a => ?_, by decide, by decide⟩
      dsimp [cexState]
      split
      · omega
      · split <;> omega
    obtain ⟨t, ht⟩ : ∃ t, step 0 (cexState 0x70 0xFF (fun i => if i = 0 then 200 else 0)) =
        some t := ⟨_, rfl⟩
    refine ⟨t, ht, (claim10_byte_invariant).2.1 0 _ t hInv ht, ?_⟩
    have h7 := step_7XNN 0 (cexState 0x70 0xFF (fun i => if i = 0 then 200 else 0)) 0 0xFF
      (by norm_num) (by norm_num) (by decide) (by decide)
    rw [h7] at ht
    injection ht with ht2
    rw [← ht2]
    decide

end PySlow8
